import Mathlib

/-!
Verification of the core of `interactive_file_checker.py` (repository
Flie-checker): the `FileChecker` class with its single-file validator
`check_file`, the thread worker loop `worker`, and the batch driver
`check_batch`.

The filesystem and the OS calls the Python code performs
(`os.path.exists`, `os.path.getsize`, `open`/`read`) are modelled as an
abstract environment `FileSystem`; every outcome a call can have in
Python (success, `PermissionError`, any other exception with a detail
string) is a value of the model.  `check_file` is then a pure function
of that environment, translated branch by branch from the source
(lines 55-93).  The thread pool of `check_batch` (lines 95-158) is
modelled as a small-step relation on a batch state whose worker pool is
a multiset of per-worker control states; the lock-guarded
append-and-increment of `worker` (lines 106-108) is a single atomic
step of the relation, mirroring the mutual exclusion the lock provides.
-/

namespace InteractiveFileChecker

/-- Outcome of `open(filepath, 'rb')` followed by `f.read(n)` in the
source (lines 81-83): success, a `PermissionError` (line 85), or any
other exception carrying the detail string `str(e)` (line 87). -/
inductive ReadOutcome where
  | success : ReadOutcome
  | permissionError : ReadOutcome
  | ioError (detail : String) : ReadOutcome
deriving DecidableEq, Repr

/-- Abstract filesystem environment.  `exists?` models
`os.path.exists` (line 67; it returns a boolean and does not raise for
string arguments), `getsize` models `os.path.getsize` (line 72), which
either returns a byte count or raises an exception with detail string
`str(e)` (caught by the outer handler at line 90), and `readHead p n`
models opening `p` and reading its first `n` bytes (line 83). -/
structure FileSystem where
  exists? : String → Bool
  getsize : String → Except String Nat
  readHead : String → Nat → ReadOutcome

/-- `os.path.basename` (line 59): the component after the last path
separator; modelled for `/` and `\` separators only, which is all the
claims need of it. -/
def basename (p : String) : String :=
  (((p.splitOn "/").getLastD "").splitOn "\\").getLastD ""

/-- The result dictionary built by `check_file` (lines 57-64): keys
`file`, `filename`, `exists`, `readable`, `size`, `error`. -/
structure ValidationResult where
  file : String
  filename : String
  «exists» : Bool
  readable : Bool
  size : Nat
  error : Option String
deriving DecidableEq, Repr

/-- Message written at line 68 for a missing path; the spec renders it
in English as "not found". -/
def msgNotFound : String := "文件不存在"

/-- Message written at line 76 for a zero-byte file; the spec renders
it as "empty file". -/
def msgEmptyFile : String := "空文件"

/-- Message written at line 86 on `PermissionError`; the spec renders
it as "permission denied". -/
def msgPermissionDenied : String := "权限不足"

/-- Prefix of the message written at line 88 on any other read
exception (`f"读取失败: {str(e)[:50]}"`); the spec renders it as
"read failed: ". -/
def msgReadFailed : String := "读取失败: "

/-- Prefix of the message written at line 91 by the outer handler
(`f"检查错误: {str(e)[:50]}"`); the spec renders it as
"check error: ". -/
def msgCheckError : String := "检查错误: "

/-- `FileChecker.check_file` (lines 55-93), translated branch by
branch.  The initial `result` dictionary of lines 57-64 is the record
`r0`; each Python early `return` is a branch here.  When
`os.path.getsize` raises, `exists` has already been set to `True`
(line 71) but `size` is still the initial `0`, and the outer handler
(lines 90-91) records the check-error message; this is the
`Except.error` branch. -/
def check_file (fs : FileSystem) (filepath : String) : ValidationResult :=
  let r0 : ValidationResult :=
    { file := filepath
      filename := basename filepath
      «exists» := false
      readable := false
      size := 0
      error := none }
  if fs.exists? filepath = false then
    { r0 with error := some msgNotFound }
  else
    match fs.getsize filepath with
    | Except.error e =>
        { r0 with «exists» := true, error := some (msgCheckError ++ e.take 50) }
    | Except.ok size =>
        if size = 0 then
          { r0 with «exists» := true, size := size, error := some msgEmptyFile }
        else
          match fs.readHead filepath (min 4096 size) with
          | ReadOutcome.success =>
              { r0 with «exists» := true, size := size, readable := true }
          | ReadOutcome.permissionError =>
              { r0 with «exists» := true, size := size,
                        error := some msgPermissionDenied }
          | ReadOutcome.ioError d =>
              { r0 with «exists» := true, size := size,
                        error := some (msgReadFailed ++ d.take 50) }

/-- Control state of one worker thread executing `FileChecker.worker`
(lines 95-123): `idle` is at the top of the loop, about to call
`file_queue.get_nowait()`; `busy p` holds the path it dequeued and has
not yet recorded; `done` has left the loop via the `except: break` of
lines 100-101. -/
inductive WorkerState where
  | idle : WorkerState
  | busy (filepath : String) : WorkerState
  | done : WorkerState
deriving DecidableEq, Repr

/-- Shared state of one run of `check_batch`: the FIFO `file_queue`
(line 139), `self.results`, `self.processed`, and the pool of worker
threads.  Workers run the same loop and their thread identities never
matter, so the pool is a multiset of control states. -/
structure BatchState where
  queue : List String
  results : List ValidationResult
  processed : Nat
  workers : Multiset WorkerState

/-- One interleaved action of some worker thread (lines 95-123), with
the filesystem environment fixed for the run:

* `dequeue` — `file_queue.get_nowait()` succeeds (line 99): the worker
  at the top of its loop removes the head of the queue.  The `Queue`
  class makes this removal atomic.
* `terminate` — `get_nowait` raises on an empty queue and the bare
  `except` breaks the loop (lines 100-101).
* `record` — the worker holding `p` has computed `check_file(p)`
  (line 104) and now, inside `with self.lock:` (lines 106-108),
  appends the result and increments `self.processed`.  The lock makes
  the append and the increment one atomic unit, so they form a single
  step.  The progress rendering of lines 111-121 also happens inside
  the lock but touches no state the claims mention.
-/
inductive BatchStep (fs : FileSystem) : BatchState → BatchState → Prop
  | dequeue (p : String) (rest : List String) (res : List ValidationResult)
      (n : Nat) (ws : Multiset WorkerState) :
      BatchStep fs
        { queue := p :: rest, results := res, processed := n,
          workers := WorkerState.idle ::ₘ ws }
        { queue := rest, results := res, processed := n,
          workers := WorkerState.busy p ::ₘ ws }
  | terminate (res : List ValidationResult) (n : Nat)
      (ws : Multiset WorkerState) :
      BatchStep fs
        { queue := [], results := res, processed := n,
          workers := WorkerState.idle ::ₘ ws }
        { queue := [], results := res, processed := n,
          workers := WorkerState.done ::ₘ ws }
  | record (p : String) (q : List String) (res : List ValidationResult)
      (n : Nat) (ws : Multiset WorkerState) :
      BatchStep fs
        { queue := q, results := res, processed := n,
          workers := WorkerState.busy p ::ₘ ws }
        { queue := q, results := res ++ [check_file fs p], processed := n + 1,
          workers := WorkerState.idle ::ₘ ws }

/-- The pool has finished: every worker thread has left its loop.
`check_batch` joins all threads (lines 152-153) before returning, so
the value it returns is read in such a state. -/
def Terminal (s : BatchState) : Prop :=
  ∀ w ∈ s.workers, w = WorkerState.done

/-- The mutable state of a `FileChecker` instance (lines 47-53) that
`check_batch` reads or overwrites.  `start_time` is a wall-clock
timestamp and is outside the model. -/
structure FileChecker where
  max_workers : Nat
  results : List ValidationResult
  total_files : Nat
  processed : Nat

/-- How many worker threads `check_batch` starts: none at all when the
list is empty (the early return at lines 127-128 precedes thread
creation), else `min(self.max_workers, self.total_files)` (line 145). -/
def check_batch_spawned (max_workers : Nat) (file_list : List String) : Nat :=
  if file_list.isEmpty then 0 else min max_workers file_list.length

/-- The shared state right after the reset of lines 130-133 and the
queue fill of lines 139-141: `self.processed = 0`, `self.results = []`,
the queue holds `file_list` in order, and the threads of line 145-149
are all at the top of their loops.  Note the previous contents of the
`checker`'s `results`, `processed` and `total_files` fields are
overwritten and do not appear. -/
def check_batch_start (checker : FileChecker) (file_list : List String) :
    BatchState :=
  { queue := file_list
    results := []
    processed := 0
    workers := Multiset.replicate (check_batch_spawned checker.max_workers file_list)
      WorkerState.idle }

/-- `FileChecker.check_batch` (lines 125-158) as a relation between the
instance state, the input list and the returned list: on an empty list
the early return at lines 127-128 yields the literal `[]`; otherwise
the return value is `self.results` as read after some interleaving of
worker steps has run to completion and every thread has been joined. -/
def CheckBatch (fs : FileSystem) (checker : FileChecker)
    (file_list : List String) (out : List ValidationResult) : Prop :=
  if file_list.isEmpty then out = []
  else ∃ final : BatchState,
    Relation.ReflTransGen (BatchStep fs) (check_batch_start checker file_list) final ∧
    Terminal final ∧ out = final.results

/-- The paths currently dequeued but not yet recorded: one per `busy`
worker. -/
def busyPaths (ws : Multiset WorkerState) : Multiset String :=
  ws.filterMap fun w =>
    match w with
    | WorkerState.busy p => some p
    | _ => none

lemma busyPaths_idle_cons (ws : Multiset WorkerState) :
    busyPaths (WorkerState.idle ::ₘ ws) = busyPaths ws :=
  Multiset.filterMap_cons_none _ _ rfl

lemma busyPaths_done_cons (ws : Multiset WorkerState) :
    busyPaths (WorkerState.done ::ₘ ws) = busyPaths ws :=
  Multiset.filterMap_cons_none _ _ rfl

lemma busyPaths_busy_cons (p : String) (ws : Multiset WorkerState) :
    busyPaths (WorkerState.busy p ::ₘ ws) = p ::ₘ busyPaths ws :=
  Multiset.filterMap_cons_some _ _ _ rfl

lemma busyPaths_replicate_idle (n : Nat) :
    busyPaths (Multiset.replicate n WorkerState.idle) = 0 := by
  induction n with
  | zero => simp [busyPaths]
  | succ k ih => rw [Multiset.replicate_succ, busyPaths_idle_cons, ih]

lemma busyPaths_of_all_done (ws : Multiset WorkerState)
    (h : ∀ w ∈ ws, w = WorkerState.done) : busyPaths ws = 0 := by
  induction ws using Multiset.induction with
  | empty => exact Multiset.filterMap_zero _
  | cons a s ih =>
      have ha : a = WorkerState.done := h a (Multiset.mem_cons_self a s)
      subst ha
      rw [busyPaths_done_cons]
      exact ih fun w hw => h w (Multiset.mem_cons_of_mem hw)

/-- The conservation invariant of one batch run: the input paths are
split between the queue, the in-flight items of busy workers, and the
paths already recorded; the results are exactly the `check_file`
outputs of the recorded paths; and `self.processed` equals the length
of `self.results`. -/
def MInv (fs : FileSystem) (paths : Multiset String) (s : BatchState) : Prop :=
  ∃ donePaths : List String,
    paths = (s.queue : Multiset String) + busyPaths s.workers + (donePaths : Multiset String) ∧
    (s.results : Multiset ValidationResult) = ((donePaths.map (check_file fs) : List ValidationResult) : Multiset ValidationResult) ∧
    s.processed = s.results.length

lemma MInv_step {fs : FileSystem} {paths : Multiset String} {s s' : BatchState}
    (hstep : BatchStep fs s s') (hI : MInv fs paths s) : MInv fs paths s' := by
  obtain ⟨donePaths, hpart, hres, hlen⟩ := hI
  cases hstep with
  | dequeue p rest res n ws =>
      refine ⟨donePaths, ?_, hres, hlen⟩
      simp only [busyPaths_idle_cons, busyPaths_busy_cons, ← Multiset.cons_coe,
        Multiset.cons_add, Multiset.add_cons] at hpart ⊢
      exact hpart
  | terminate res n ws =>
      refine ⟨donePaths, ?_, hres, hlen⟩
      simpa only [busyPaths_idle_cons, busyPaths_done_cons] using hpart
  | record p q res n ws =>
      refine ⟨donePaths ++ [p], ?_, ?_, ?_⟩
      · have hpart' : paths = (q : Multiset String) + ({p} + busyPaths ws) +
            (donePaths : Multiset String) := by
          simp only [busyPaths_busy_cons] at hpart
          rw [← Multiset.singleton_add] at hpart
          exact hpart
        have hsplit : ((donePaths ++ [p] : List String) : Multiset String) =
            (donePaths : Multiset String) + {p} := rfl
        simp only [busyPaths_idle_cons, hsplit]
        rw [hpart']
        abel
      · simp only [List.map_append, List.map_cons, List.map_nil, ← Multiset.coe_add] at hres ⊢
        rw [hres]
      · simpa using hlen

lemma MInv_reach {fs : FileSystem} {paths : Multiset String} {s s' : BatchState}
    (hreach : Relation.ReflTransGen (BatchStep fs) s s')
    (hI : MInv fs paths s) : MInv fs paths s' := by
  induction hreach with
  | refl => exact hI
  | tail _ hstep ih => exact MInv_step hstep ih

/-- Once every worker has terminated, the queue must already have been
empty: a worker only breaks out of its loop on `get_nowait` raising,
which happens exactly when the queue is empty, and the queue never
grows during a run. -/
def DrainInv (s : BatchState) : Prop :=
  (∀ w ∈ s.workers, w = WorkerState.done) → s.queue = []

lemma DrainInv_step {fs : FileSystem} {s s' : BatchState}
    (hstep : BatchStep fs s s') (hI : DrainInv s) : DrainInv s' := by
  cases hstep with
  | dequeue p rest res n ws =>
      intro hall
      exact absurd (hall _ (Multiset.mem_cons_self _ ws)) (by simp)
  | terminate res n ws => intro _; rfl
  | record p q res n ws =>
      intro hall
      exact absurd (hall _ (Multiset.mem_cons_self _ ws)) (by simp)

lemma DrainInv_reach {fs : FileSystem} {s s' : BatchState}
    (hreach : Relation.ReflTransGen (BatchStep fs) s s')
    (hI : DrainInv s) : DrainInv s' := by
  induction hreach with
  | refl => exact hI
  | tail _ hstep ih => exact DrainInv_step hstep ih

/-- Every batch outcome is the input list mapped through `check_file`,
up to completion order: extraction of the conservation invariant at a
terminal state, for at least one spawned worker. -/
lemma checkBatch_multiset {fs : FileSystem} {checker : FileChecker}
    {file_list : List String} {out : List ValidationResult}
    (hmw : 1 ≤ checker.max_workers)
    (h : CheckBatch fs checker file_list out) :
    (out : Multiset ValidationResult) =
      ((file_list.map (check_file fs) : List ValidationResult) : Multiset ValidationResult) := by
  by_cases hl : file_list.isEmpty
  · rw [CheckBatch, if_pos hl] at h
    rw [List.isEmpty_iff] at hl
    subst hl h
    rfl
  · rw [CheckBatch, if_neg hl] at h
    obtain ⟨final, hreach, hterm, hout⟩ := h
    have hne : file_list ≠ [] := fun hnil => hl (by simp [hnil])
    have hI0 : MInv fs (file_list : Multiset String) (check_batch_start checker file_list) := by
      refine ⟨[], ?_, rfl, rfl⟩
      simp [check_batch_start, busyPaths_replicate_idle]
    have hD0 : DrainInv (check_batch_start checker file_list) := by
      intro hall
      exfalso
      have hnw : check_batch_spawned checker.max_workers file_list ≠ 0 := by
        rw [check_batch_spawned, if_neg (by simpa using hl)]
        have : 1 ≤ file_list.length := by
          cases file_list with
          | nil => exact absurd rfl hne
          | cons a l => simp
        omega
      have hmem : WorkerState.idle ∈ (check_batch_start checker file_list).workers := by
        rw [check_batch_start]
        exact Multiset.mem_replicate.2 ⟨hnw, rfl⟩
      exact absurd (hall _ hmem) (by simp)
    obtain ⟨donePaths, hpart, hres, _⟩ := MInv_reach hreach hI0
    have hqnil : final.queue = [] := DrainInv_reach hreach hD0 hterm
    have hbusy : busyPaths final.workers = 0 := busyPaths_of_all_done _ hterm
    rw [hqnil, hbusy] at hpart
    simp only [Multiset.coe_nil, zero_add, add_zero] at hpart
    have hdone : ((donePaths.map (check_file fs) : List ValidationResult) : Multiset ValidationResult) =
        ((file_list.map (check_file fs) : List ValidationResult) : Multiset ValidationResult) := by
      rw [← Multiset.map_coe, ← Multiset.map_coe, ← hpart]
    rw [hout, hres, hdone]

/-- A single worker can drain the whole queue sequentially:
repeatedly dequeue then record, then terminate once the queue is
empty. -/
lemma seq_exec (fs : FileSystem) (l : List String) (res : List ValidationResult)
    (n : Nat) (ws : Multiset WorkerState) :
    Relation.ReflTransGen (BatchStep fs)
      ⟨l, res, n, WorkerState.idle ::ₘ ws⟩
      ⟨[], res ++ l.map (check_file fs), n + l.length, WorkerState.done ::ₘ ws⟩ := by
  induction l generalizing res n with
  | nil =>
      have hstep := @BatchStep.terminate fs res n ws
      simpa using Relation.ReflTransGen.single hstep
  | cons p rest ih =>
      have h1 := @BatchStep.dequeue fs p rest res n ws
      have h2 := @BatchStep.record fs p rest res n ws
      have h3 := ih (res ++ [check_file fs p]) (n + 1)
      have h3' : Relation.ReflTransGen (BatchStep fs)
          ⟨rest, res ++ [check_file fs p], n + 1, WorkerState.idle ::ₘ ws⟩
          ⟨[], res ++ (p :: rest).map (check_file fs), n + (p :: rest).length,
            WorkerState.done ::ₘ ws⟩ := by
        have heq : (⟨[], (res ++ [check_file fs p]) ++ rest.map (check_file fs),
            (n + 1) + rest.length, WorkerState.done ::ₘ ws⟩ : BatchState) =
            ⟨[], res ++ (p :: rest).map (check_file fs), n + (p :: rest).length,
              WorkerState.done ::ₘ ws⟩ := by
          have harith : n + 1 + rest.length = n + (rest.length + 1) := by omega
          simp [List.append_assoc, harith]
        exact heq ▸ h3
      exact Relation.ReflTransGen.head h1 (Relation.ReflTransGen.head h2 h3')

/-- With the queue already empty, every remaining idle worker
terminates. -/
lemma drain_idle (fs : FileSystem) (k : Nat) (res : List ValidationResult)
    (n : Nat) (ws : Multiset WorkerState) :
    Relation.ReflTransGen (BatchStep fs)
      ⟨[], res, n, Multiset.replicate k WorkerState.idle + ws⟩
      ⟨[], res, n, Multiset.replicate k WorkerState.done + ws⟩ := by
  induction k generalizing ws with
  | zero =>
      simpa using (Relation.ReflTransGen.refl :
        Relation.ReflTransGen (BatchStep fs) ⟨[], res, n, ws⟩ ⟨[], res, n, ws⟩)
  | succ k ih =>
      have hstep : BatchStep fs
          ⟨[], res, n, Multiset.replicate (k + 1) WorkerState.idle + ws⟩
          ⟨[], res, n, Multiset.replicate k WorkerState.idle + (WorkerState.done ::ₘ ws)⟩ := by
        have := @BatchStep.terminate fs res n (Multiset.replicate k WorkerState.idle + ws)
        simpa [Multiset.replicate_succ, Multiset.cons_add, Multiset.add_cons] using this
      have hrest := ih (WorkerState.done ::ₘ ws)
      have heq : (⟨[], res, n, Multiset.replicate k WorkerState.done +
          (WorkerState.done ::ₘ ws)⟩ : BatchState) =
          ⟨[], res, n, Multiset.replicate (k + 1) WorkerState.done + ws⟩ := by
        simp [Multiset.replicate_succ, Multiset.cons_add, Multiset.add_cons]
      exact Relation.ReflTransGen.head hstep (heq ▸ hrest)

/-- `check_batch` always has at least one complete run, whose returned
list is the input list mapped through `check_file` in input order (the
schedule in which one worker does all the work and the others
terminate at once). -/
lemma check_batch_run (fs : FileSystem) (checker : FileChecker)
    (file_list : List String) (hmw : 1 ≤ checker.max_workers) :
    CheckBatch fs checker file_list (file_list.map (check_file fs)) := by
  by_cases hl : file_list.isEmpty
  · rw [CheckBatch, if_pos hl]
    rw [List.isEmpty_iff] at hl
    simp [hl]
  · rw [CheckBatch, if_neg hl]
    have hlen : 1 ≤ file_list.length := by
      cases file_list with
      | nil => simp at hl
      | cons a l => simp
    set nw := check_batch_spawned checker.max_workers file_list with hnw
    have hnw1 : 1 ≤ nw := by
      rw [hnw, check_batch_spawned, if_neg (by simpa using hl)]
      omega
    refine ⟨⟨[], file_list.map (check_file fs), file_list.length,
      Multiset.replicate nw WorkerState.done⟩, ?_, ?_, rfl⟩
    · have hsplit : Multiset.replicate nw WorkerState.idle =
          WorkerState.idle ::ₘ Multiset.replicate (nw - 1) WorkerState.idle := by
        have hk : nw = (nw - 1) + 1 := by omega
        conv_lhs => rw [hk]
        rw [Multiset.replicate_succ]
      have h1 : Relation.ReflTransGen (BatchStep fs)
          (check_batch_start checker file_list)
          ⟨[], file_list.map (check_file fs), file_list.length,
            WorkerState.done ::ₘ Multiset.replicate (nw - 1) WorkerState.idle⟩ := by
        have := seq_exec fs file_list [] 0 (Multiset.replicate (nw - 1) WorkerState.idle)
        rw [check_batch_start, ← hnw, hsplit]
        simpa using this
      have h2 : Relation.ReflTransGen (BatchStep fs)
          ⟨[], file_list.map (check_file fs), file_list.length,
            WorkerState.done ::ₘ Multiset.replicate (nw - 1) WorkerState.idle⟩
          ⟨[], file_list.map (check_file fs), file_list.length,
            Multiset.replicate nw WorkerState.done⟩ := by
        have := drain_idle fs (nw - 1) (file_list.map (check_file fs)) file_list.length
          (WorkerState.done ::ₘ (0 : Multiset WorkerState))
        have heq1 : Multiset.replicate (nw - 1) WorkerState.idle +
            (WorkerState.done ::ₘ (0 : Multiset WorkerState)) =
            WorkerState.done ::ₘ Multiset.replicate (nw - 1) WorkerState.idle := by
          rw [Multiset.add_cons, add_zero]
        have heq2 : Multiset.replicate (nw - 1) WorkerState.done +
            (WorkerState.done ::ₘ (0 : Multiset WorkerState)) =
            Multiset.replicate nw WorkerState.done := by
          rw [Multiset.add_cons, add_zero, ← Multiset.replicate_succ]
          have : nw - 1 + 1 = nw := by omega
          rw [this]
        rw [heq1, heq2] at this
        exact this
      exact Relation.ReflTransGen.trans h1 h2
    · intro w hw
      exact Multiset.eq_of_mem_replicate hw

/-! Concrete environments used to instantiate theorems with
hypotheses. -/

/-- An environment in which every path is a readable 100-byte file. -/
def fsOk : FileSystem :=
  { exists? := fun _ => true
    getsize := fun _ => Except.ok 100
    readHead := fun _ _ => ReadOutcome.success }

/-- An environment in which no path is present. -/
def fsMissing : FileSystem :=
  { exists? := fun _ => false
    getsize := fun _ => Except.ok 100
    readHead := fun _ _ => ReadOutcome.success }

/-- An environment in which every path is an existing zero-byte file. -/
def fsEmpty : FileSystem :=
  { exists? := fun _ => true
    getsize := fun _ => Except.ok 0
    readHead := fun _ _ => ReadOutcome.success }

/-- An environment in which every open raises `PermissionError`. -/
def fsDenied : FileSystem :=
  { exists? := fun _ => true
    getsize := fun _ => Except.ok 7
    readHead := fun _ _ => ReadOutcome.permissionError }

/-- A checker configured with one worker thread, as fresh from
`FileChecker(max_workers=1)`. -/
def checker1 : FileChecker :=
  { max_workers := 1, results := [], total_files := 0, processed := 0 }

/-- A checker configured with sixteen worker threads. -/
def checker16 : FileChecker :=
  { max_workers := 16, results := [], total_files := 0, processed := 0 }

/-- A checker carrying leftover state from an earlier batch. -/
def checkerDirty : FileChecker :=
  { max_workers := 1
    results := [check_file fsMissing "old.txt"]
    total_files := 3
    processed := 3 }

/-- C1: for every input list of N paths and every `workerCount` in
[1,16], `check_batch` returns exactly N `ValidationResult`s, one per
input path — as a multiset the output is exactly the input list mapped
through `check_file`, so no path is lost and none is processed or
reported more than once. -/
theorem check_batch_exactly_once (fs : FileSystem) (checker : FileChecker)
    (file_list : List String) (out : List ValidationResult)
    (hmw1 : 1 ≤ checker.max_workers) (hmw16 : checker.max_workers ≤ 16)
    (h : CheckBatch fs checker file_list out) :
    out.length = file_list.length ∧
    (out : Multiset ValidationResult) =
      ((file_list.map (check_file fs) : List ValidationResult) : Multiset ValidationResult) := by
  have hms := checkBatch_multiset hmw1 h
  refine ⟨?_, hms⟩
  have := congrArg Multiset.card hms
  simpa [Multiset.coe_card] using this

theorem check_batch_exactly_once_witness :
    (["a.txt", "b.txt"].map (check_file fsOk)).length = ["a.txt", "b.txt"].length ∧
    ((["a.txt", "b.txt"].map (check_file fsOk) : List ValidationResult) : Multiset ValidationResult) =
      ((["a.txt", "b.txt"].map (check_file fsOk) : List ValidationResult) : Multiset ValidationResult) :=
  check_batch_exactly_once fsOk checker1 ["a.txt", "b.txt"] _
    (by decide) (by decide)
    (check_batch_run fsOk checker1 ["a.txt", "b.txt"] (by decide))

/-- C2: `check_file` is a total function of the environment — it never
propagates a failure outward — and every failure of the existence
check, the size query, the open or the read ends up in the `error`
field: each result is either readable with no error, or carries one of
the five classified messages. -/
theorem check_file_never_raises (fs : FileSystem) (p : String) :
    ((check_file fs p).readable = true ∧ (check_file fs p).error = none) ∨
    (check_file fs p).error = some msgNotFound ∨
    (check_file fs p).error = some msgEmptyFile ∨
    (check_file fs p).error = some msgPermissionDenied ∨
    (∃ d : String, (check_file fs p).error = some (msgReadFailed ++ d.take 50)) ∨
    (∃ d : String, (check_file fs p).error = some (msgCheckError ++ d.take 50)) := by
  by_cases hex : fs.exists? p = false
  · right; left
    simp [check_file, hex]
  · cases hsz : fs.getsize p with
    | error e =>
        right; right; right; right; right
        exact ⟨e, by simp [check_file, hex, hsz]⟩
    | ok size =>
        by_cases h0 : size = 0
        · right; right; left
          simp [check_file, hex, hsz, h0]
        · cases hrd : fs.readHead p (min 4096 size) with
          | success =>
              left
              simp [check_file, hex, hsz, h0, hrd]
          | permissionError =>
              right; right; right; left
              simp [check_file, hex, hsz, h0, hrd]
          | ioError d =>
              right; right; right; right; left
              exact ⟨d, by simp [check_file, hex, hsz, h0, hrd]⟩

/-- C3: for an existing non-empty file, `check_file` reads
`min 4096 size` leading bytes; on success the result is readable with
no error, on `PermissionError` the error is the permission message,
and on any other failure the error is the read-failed prefix followed
by the detail truncated to its first 50 characters. -/
theorem check_file_read_cases (fs : FileSystem) (p : String) (size : Nat)
    (hex : fs.exists? p = true) (hsz : fs.getsize p = Except.ok size)
    (h0 : size ≠ 0) :
    (fs.readHead p (min 4096 size) = ReadOutcome.success →
      (check_file fs p).readable = true ∧ (check_file fs p).error = none) ∧
    (fs.readHead p (min 4096 size) = ReadOutcome.permissionError →
      (check_file fs p).readable = false ∧
      (check_file fs p).error = some msgPermissionDenied) ∧
    (∀ d : String, fs.readHead p (min 4096 size) = ReadOutcome.ioError d →
      (check_file fs p).readable = false ∧
      (check_file fs p).error = some (msgReadFailed ++ d.take 50)) := by
  refine ⟨fun hrd => ?_, fun hrd => ?_, fun d hrd => ?_⟩ <;>
    simp [check_file, hex, hsz, h0, hrd]

theorem check_file_read_cases_witness :
    (check_file fsOk "ok.txt").readable = true ∧
    (check_file fsOk "ok.txt").error = none :=
  (check_file_read_cases fsOk "ok.txt" 100 rfl rfl (by decide)).1 rfl

/-- C4: for a path absent from the filesystem, `check_file` reports
`exists = false`, `readable = false`, the not-found message, and size
0. -/
theorem check_file_not_found (fs : FileSystem) (p : String)
    (h : fs.exists? p = false) :
    (check_file fs p).«exists» = false ∧ (check_file fs p).readable = false ∧
    (check_file fs p).error = some msgNotFound ∧ (check_file fs p).size = 0 := by
  simp [check_file, h]

theorem check_file_not_found_witness :
    (check_file fsMissing "gone.txt").«exists» = false ∧
    (check_file fsMissing "gone.txt").readable = false ∧
    (check_file fsMissing "gone.txt").error = some msgNotFound ∧
    (check_file fsMissing "gone.txt").size = 0 :=
  check_file_not_found fsMissing "gone.txt" rfl

/-- C5: for an existing zero-byte file, `check_file` reports
`exists = true`, `readable = false`, size 0, and the empty-file
message. -/
theorem check_file_empty_file (fs : FileSystem) (p : String)
    (hex : fs.exists? p = true) (hsz : fs.getsize p = Except.ok 0) :
    (check_file fs p).«exists» = true ∧ (check_file fs p).readable = false ∧
    (check_file fs p).size = 0 ∧ (check_file fs p).error = some msgEmptyFile := by
  simp [check_file, hex, hsz]

theorem check_file_empty_file_witness :
    (check_file fsEmpty "zero.bin").«exists» = true ∧
    (check_file fsEmpty "zero.bin").readable = false ∧
    (check_file fsEmpty "zero.bin").size = 0 ∧
    (check_file fsEmpty "zero.bin").error = some msgEmptyFile :=
  check_file_empty_file fsEmpty "zero.bin" rfl rfl

/-- C6: the data-model invariant holds of every result `check_file`
produces: a readable result carries no error, and a result for a
non-existing path has size 0 and the not-found message. -/
theorem check_file_invariant (fs : FileSystem) (p : String) :
    ((check_file fs p).readable = true → (check_file fs p).error = none) ∧
    ((check_file fs p).«exists» = false →
      (check_file fs p).size = 0 ∧ (check_file fs p).error = some msgNotFound) := by
  by_cases hex : fs.exists? p = false
  · constructor
    · intro hr
      exact absurd hr (by simp [check_file, hex])
    · intro _
      simp [check_file, hex]
  · cases hsz : fs.getsize p with
    | error e =>
        constructor
        · intro hr
          exact absurd hr (by simp [check_file, hex, hsz])
        · intro hfalse
          exact absurd hfalse (by simp [check_file, hex, hsz])
    | ok size =>
        by_cases h0 : size = 0
        · constructor
          · intro hr
            exact absurd hr (by simp [check_file, hex, hsz, h0])
          · intro hfalse
            exact absurd hfalse (by simp [check_file, hex, hsz, h0])
        · cases hrd : fs.readHead p (min 4096 size) with
          | success =>
              constructor
              · intro _
                simp [check_file, hex, hsz, h0, hrd]
              · intro hfalse
                exact absurd hfalse (by simp [check_file, hex, hsz, h0, hrd])
          | permissionError =>
              constructor
              · intro hr
                exact absurd hr (by simp [check_file, hex, hsz, h0, hrd])
              · intro hfalse
                exact absurd hfalse (by simp [check_file, hex, hsz, h0, hrd])
          | ioError d =>
              constructor
              · intro hr
                exact absurd hr (by simp [check_file, hex, hsz, h0, hrd])
              · intro hfalse
                exact absurd hfalse (by simp [check_file, hex, hsz, h0, hrd])

theorem check_file_invariant_witness :
    (check_file fsMissing "gone.txt").size = 0 ∧
    (check_file fsMissing "gone.txt").error = some msgNotFound :=
  (check_file_invariant fsMissing "gone.txt").2 rfl

lemma processed_le_of_step {fs : FileSystem} {s s' : BatchState}
    (h : BatchStep fs s s') : s.processed ≤ s'.processed := by
  cases h with
  | dequeue p rest res n ws => exact le_refl n
  | terminate res n ws => exact le_refl n
  | record p q res n ws => exact Nat.le_succ n

lemma processed_le_of_reach {fs : FileSystem} {s s' : BatchState}
    (h : Relation.ReflTransGen (BatchStep fs) s s') :
    s.processed ≤ s'.processed := by
  induction h with
  | refl => exact le_refl _
  | tail _ hstep ih => exact le_trans ih (processed_le_of_step hstep)

lemma processed_eq_length_of_step {fs : FileSystem} {s s' : BatchState}
    (h : BatchStep fs s s') (hinv : s.processed = s.results.length) :
    s'.processed = s'.results.length := by
  cases h with
  | dequeue p rest res n ws => exact hinv
  | terminate res n ws => exact hinv
  | record p q res n ws => simpa using hinv

/-- C7: the append of the result and the increment of `self.processed`
happen as one atomic `record` step (the `with self.lock:` block of the
worker), so along every execution of a batch the `processed` counter
is monotonically increasing and equals the length of `self.results` at
every reachable state — in particular after every record and at the
final joined state. -/
theorem worker_record_atomic_progress (fs : FileSystem) (checker : FileChecker)
    (file_list : List String) (s : BatchState)
    (hreach : Relation.ReflTransGen (BatchStep fs)
      (check_batch_start checker file_list) s) :
    s.processed = s.results.length ∧
    ∀ s' : BatchState, Relation.ReflTransGen (BatchStep fs) s s' →
      s.processed ≤ s'.processed := by
  constructor
  · have h0 : (check_batch_start checker file_list).processed =
        (check_batch_start checker file_list).results.length := rfl
    induction hreach with
    | refl => exact h0
    | tail _ hstep ih => exact processed_eq_length_of_step hstep ih
  · intro s' hs'
    exact processed_le_of_reach hs'

theorem worker_record_atomic_progress_witness :
    (check_batch_start checker1 ["a.txt"]).processed =
      (check_batch_start checker1 ["a.txt"]).results.length :=
  (worker_record_atomic_progress fsOk checker1 ["a.txt"] _
    Relation.ReflTransGen.refl).1

/-- C8: the same input list run with one worker and with sixteen
workers yields the same multiset of results; only completion order can
differ. -/
theorem check_batch_worker_count_equiv (fs : FileSystem)
    (c1 c16 : FileChecker) (file_list : List String)
    (out1 out16 : List ValidationResult)
    (h1w : c1.max_workers = 1) (h16w : c16.max_workers = 16)
    (h1 : CheckBatch fs c1 file_list out1)
    (h16 : CheckBatch fs c16 file_list out16) :
    (out1 : Multiset ValidationResult) = (out16 : Multiset ValidationResult) := by
  rw [checkBatch_multiset (by omega) h1, checkBatch_multiset (by omega) h16]

theorem check_batch_worker_count_equiv_witness :
    ((["a.txt", "b.txt"].map (check_file fsOk) : List ValidationResult) : Multiset ValidationResult) =
      ((["a.txt", "b.txt"].map (check_file fsOk) : List ValidationResult) : Multiset ValidationResult) :=
  check_batch_worker_count_equiv fsOk checker1 checker16 ["a.txt", "b.txt"] _ _
    rfl rfl
    (check_batch_run fsOk checker1 ["a.txt", "b.txt"] (by decide))
    (check_batch_run fsOk checker16 ["a.txt", "b.txt"] (by decide))

/-- C9: on the empty path list `check_batch` takes the early return of
lines 127-128: its only possible return value is the empty list, and
the thread-spawning loop never runs, so zero workers are created. -/
theorem check_batch_empty_list (fs : FileSystem) (checker : FileChecker) :
    (∀ out : List ValidationResult, CheckBatch fs checker [] out ↔ out = []) ∧
    check_batch_spawned checker.max_workers [] = 0 := by
  constructor
  · intro out
    rw [CheckBatch]
    simp
  · rfl

/-- C10: a non-empty `check_batch` call starts from the reset state
(`processed = 0`, `results = []`, the queue holding exactly the current
list), so its possible outcomes do not depend on the `results`,
`total_files` or `processed` left in the `FileChecker` instance by a
previous run, and every returned result is the `check_file` output of
a path of the current batch — never a leftover from an earlier one. -/
theorem check_batch_resets_state (fs : FileSystem) (c cPrev : FileChecker)
    (file_list : List String) (out : List ValidationResult)
    (hmw : c.max_workers = cPrev.max_workers)
    (h : CheckBatch fs c file_list out) :
    CheckBatch fs cPrev file_list out ∧
    ∀ r ∈ out, ∃ p ∈ file_list, r = check_file fs p := by
  constructor
  · rw [CheckBatch, check_batch_start, ← hmw]
    rw [CheckBatch, check_batch_start] at h
    exact h
  · intro r hr
    by_cases hl : file_list.isEmpty
    · rw [CheckBatch, if_pos hl] at h
      subst h
      exact absurd hr (List.not_mem_nil r)
    · rw [CheckBatch, if_neg hl] at h
      obtain ⟨final, hreach, hterm, hout⟩ := h
      have hI0 : MInv fs (file_list : Multiset String)
          (check_batch_start c file_list) := by
        refine ⟨[], ?_, rfl, rfl⟩
        simp [check_batch_start, busyPaths_replicate_idle]
      obtain ⟨donePaths, hpart, hres, _⟩ := MInv_reach hreach hI0
      have hrm : r ∈ (final.results : Multiset ValidationResult) := by
        rw [← hout] at *
        exact Multiset.mem_coe.2 hr
      rw [hres] at hrm
      have hrm' : r ∈ donePaths.map (check_file fs) := Multiset.mem_coe.1 hrm
      obtain ⟨p, hp, hpr⟩ := List.mem_map.1 hrm'
      refine ⟨p, ?_, hpr.symm⟩
      have hpin : p ∈ (file_list : Multiset String) := by
        rw [hpart]
        exact Multiset.mem_add.2 (Or.inr (Multiset.mem_coe.2 hp))
      exact Multiset.mem_coe.1 hpin

theorem check_batch_resets_state_witness :
    CheckBatch fsOk checkerDirty ["a.txt"] (["a.txt"].map (check_file fsOk)) :=
  (check_batch_resets_state fsOk checker1 checkerDirty ["a.txt"] _ rfl
    (check_batch_run fsOk checker1 ["a.txt"] (by decide))).1

end InteractiveFileChecker
